import Mathlib

/-!
Verification of the tiered-cache core of `exp-go-cache`.

The Go sources embedded here are `src/unnamed/part_002` (the N-tier
`TieredCache`: `Get` / `getCache` / `populateUpperTiers` / `setCache` /
`Set` / `Delete`) and `src/batch_tiered_cache.go` (`BatchTieredCache`:
`BatchGet` / `populateUpperTiers` / `filterMissingKeys`), together with
the `ErrCacheMiss` sentinel of `src/cache.go`.

Modelling choices:
* A Go `error` is `GoErr E`: either the `ErrCacheMiss` sentinel or an
  arbitrary backend error of type `E`.  `errors.Is(err, ErrCacheMiss)`
  becomes a match on the `cacheMiss` constructor.
* A cache tier (`Cacher[V]` / `BatchCacher[V]`) is modelled as a store
  (association list of key, value, ttl) plus fault-injection functions
  that say which operations fail with which backend error.  This is the
  standard deterministic model family for an opaque backend interface.
* Go `map[string]V` values are association lists with `mLookup` /
  `mUpsert` semantics (a Go map is only observed through lookups here).
* Every backend call and every compute invocation is recorded in an
  event trace, so claims of the form "tier j is never consulted" or
  "the compute function is never invoked" are statements about the
  trace of the run.
* Durations (`time.Duration`) are `Nat`; the core only forwards them.
* The sequential projection of the singleflight path (`sfGroup.Do`
  executes its closure) is used; claims about concurrent interleavings
  are out of scope of this embedding.
-/

namespace GoCache

/-- A Go `error` as seen by the tiered caches: either the sentinel
`ErrCacheMiss` declared in `src/cache.go`, or some other backend error. -/
inductive GoErr (E : Type) where
  | cacheMiss : GoErr E
  | other : E → GoErr E
deriving DecidableEq, Repr

/-- One observable backend or compute call made by the orchestrators.
The first `Nat` of a tier event is the tier index (0 = L1). -/
inductive Ev (V : Type) where
  | getCall : Nat → String → Ev V
  | setCall : Nat → String → V → Nat → Ev V
  | delCall : Nat → String → Ev V
  | computeCall : String → Ev V
  | batchGetCall : Nat → List String → Ev V
  | batchSetCall : Nat → List (String × V) → Nat → Ev V
  | batchComputeCall : List String → Ev V
deriving DecidableEq, Repr

variable {V E : Type}

/-- Model of a backend implementing the single-key `Cacher[V]` interface:
a store of (key, value, ttl) entries plus fault injection for each
operation (`getErr k = some e` means `Get(k)` fails with backend error
`e`, and similarly for `Set` and `Delete`). -/
structure Cacher (V E : Type) where
  store : List (String × V × Nat)
  getErr : String → Option E
  setErr : String → Option E
  delErr : String → Option E

/-- Contents of a tier at a key (value and ttl). -/
def Cacher.lookup (c : Cacher V E) (k : String) : Option (V × Nat) :=
  (c.store.find? (fun p => p.1 == k)).map (·.2)

/-- Backend `Get`: injected error, else stored value, else `ErrCacheMiss`
(per the `Cacher` interface contract in `src/cache.go`). -/
def Cacher.get (c : Cacher V E) (k : String) : Except (GoErr E) V :=
  match c.getErr k with
  | some e => .error (.other e)
  | none =>
    match c.lookup k with
    | some vt => .ok vt.1
    | none => .error .cacheMiss

/-- Successful store update: overwrite the entry for `k`. -/
def Cacher.put (c : Cacher V E) (k : String) (v : V) (ttl : Nat) : Cacher V E :=
  { c with store := (k, v, ttl) :: c.store.filter (fun p => p.1 != k) }

/-- Backend `Set`: injected error (store unchanged) or overwrite. -/
def Cacher.set (c : Cacher V E) (k : String) (v : V) (ttl : Nat) :
    Option (GoErr E) × Cacher V E :=
  match c.setErr k with
  | some e => (some (.other e), c)
  | none => (none, c.put k v ttl)

/-- Backend `Delete`: injected error, else remove; `ErrCacheMiss` when
the key was absent (per the interface contract in `src/cache.go`). -/
def Cacher.delete (c : Cacher V E) (k : String) : Option (GoErr E) × Cacher V E :=
  match c.delErr k with
  | some e => (some (.other e), c)
  | none =>
    if (c.lookup k).isSome then
      (none, { c with store := c.store.filter (fun p => p.1 != k) })
    else
      (some .cacheMiss, c)

/-- `ComputeFunc[V]` of `src/unnamed/part_002`; fallible, so `Except`. -/
def ComputeFunc (V E : Type) := String → Except (GoErr E) V

/-- Result of `TieredCache.getCache`: Go's `(val, tierIndex, found, err)`
quadruple collapsed into the three reachable shapes. -/
inductive GetCacheOut (V E : Type) where
  | hit : V → Nat → GetCacheOut V E
  | missAll : GetCacheOut V E
  | fail : GoErr E → GetCacheOut V E

/-- `TieredCache.getCache` (src/unnamed/part_002 lines 98-114): walk the
tiers in order from index `i`; first success is a hit, `ErrCacheMiss`
moves on to the next tier, any other error aborts and is returned. -/
def getCacheAux : List (Cacher V E) → String → Nat → GetCacheOut V E × List (Ev V)
  | [], _, _ => (.missAll, [])
  | c :: rest, key, i =>
    match c.get key with
    | .ok v => (.hit v i, [.getCall i key])
    | .error .cacheMiss =>
      let r := getCacheAux rest key (i + 1)
      (r.1, .getCall i key :: r.2)
    | .error (.other e) => (.fail (.other e), [.getCall i key])

/-- `TieredCache.populateUpperTiers` (src/unnamed/part_002 lines 118-125):
`for i := 0; i < foundTierIndex && i < len(tc.caches); i++`, `Set` on each
tier, returning (and stopping) at the first `Set` error. -/
def popUpperAux : List (Cacher V E) → String → V → Nat → Nat → Nat →
    Option (GoErr E) × List (Cacher V E) × List (Ev V)
  | [], _, _, _, _, _ => (none, [], [])
  | c :: rest, key, v, ttl, i, bound =>
    if i < bound then
      match c.set key v ttl with
      | (some e, c') => (some e, c' :: rest, [.setCall i key v ttl])
      | (none, c') =>
        let r := popUpperAux rest key v ttl (i + 1) bound
        (r.1, c' :: r.2.1, .setCall i key v ttl :: r.2.2)
    else (none, c :: rest, [])

/-- `TieredCache.setCache` (src/unnamed/part_002 lines 128-135): `Set` on
every tier in order, returning (and stopping) at the first error. -/
def setCacheAux : List (Cacher V E) → String → V → Nat → Nat →
    Option (GoErr E) × List (Cacher V E) × List (Ev V)
  | [], _, _, _, _ => (none, [], [])
  | c :: rest, key, v, ttl, i =>
    match c.set key v ttl with
    | (some e, c') => (some e, c' :: rest, [.setCall i key v ttl])
    | (none, c') =>
      let r := setCacheAux rest key v ttl (i + 1)
      (r.1, c' :: r.2.1, .setCall i key v ttl :: r.2.2)

/-- `TieredCache.Delete` loop body (src/unnamed/part_002 lines 143-150):
`Delete` on every tier; `ErrCacheMiss` is tolerated and traversal
continues, any other error aborts and is returned. -/
def deleteAux : List (Cacher V E) → String → Nat →
    Option (GoErr E) × List (Cacher V E) × List (Ev V)
  | [], _, _ => (none, [], [])
  | c :: rest, key, i =>
    match c.delete key with
    | (none, c') =>
      let r := deleteAux rest key (i + 1)
      (r.1, c' :: r.2.1, .delCall i key :: r.2.2)
    | (some .cacheMiss, c') =>
      let r := deleteAux rest key (i + 1)
      (r.1, c' :: r.2.1, .delCall i key :: r.2.2)
    | (some e, c') => (some e, c' :: rest, [.delCall i key])

/-- Outcome of `TieredCache.Get`: Go's `(V, error)` pair as `Except`,
plus the final tier states and the call trace. -/
structure GetOut (V E : Type) where
  result : Except (GoErr E) V
  caches : List (Cacher V E)
  trace : List (Ev V)

/-- Outcome of `TieredCache.Set` / `TieredCache.Delete`. -/
structure OpOut (V E : Type) where
  err : Option (GoErr E)
  caches : List (Cacher V E)
  trace : List (Ev V)

/-- `NewTieredCache` (src/unnamed/part_002 lines 25-36): nil caches are
filtered out of the variadic argument list. -/
def NewTieredCache (opts : List (Option (Cacher V E))) : List (Cacher V E) :=
  opts.filterMap id

/-- `TieredCache.Get` (src/unnamed/part_002 lines 43-93), sequential
projection: the `sfGroup.Do` closure (double-check, compute, write
through all tiers) runs in line.  A non-miss tier error aborts; a hit at
tier `i > 0` triggers best-effort `populateUpperTiers` whose error is
discarded (`_ =` in the source); a full miss runs the closure. -/
def TieredCache.Get (caches : List (Cacher V E)) (key : String) (ttl : Nat)
    (computeFn : ComputeFunc V E) : GetOut V E :=
  match getCacheAux caches key 0 with
  | (.fail e, tr) => ⟨.error e, caches, tr⟩
  | (.hit v i, tr) =>
    if 0 < i then
      let p := popUpperAux caches key v ttl 0 i
      ⟨.ok v, p.2.1, tr ++ p.2.2⟩
    else ⟨.ok v, caches, tr⟩
  | (.missAll, tr) =>
    match getCacheAux caches key 0 with
    | (.fail e, tr2) => ⟨.error e, caches, tr ++ tr2⟩
    | (.hit v i, tr2) =>
      if 0 < i then
        let p := popUpperAux caches key v ttl 0 i
        ⟨.ok v, p.2.1, tr ++ tr2 ++ p.2.2⟩
      else ⟨.ok v, caches, tr ++ tr2⟩
    | (.missAll, tr2) =>
      match computeFn key with
      | .error e => ⟨.error e, caches, tr ++ tr2 ++ [.computeCall key]⟩
      | .ok v =>
        let s := setCacheAux caches key v ttl 0
        match s.1 with
        | some e => ⟨.error e, s.2.1, tr ++ tr2 ++ [.computeCall key] ++ s.2.2⟩
        | none => ⟨.ok v, s.2.1, tr ++ tr2 ++ [.computeCall key] ++ s.2.2⟩

/-- `TieredCache.Set` (src/unnamed/part_002 lines 138-140): delegates to
`setCache`. -/
def TieredCache.Set (caches : List (Cacher V E)) (key : String) (v : V)
    (ttl : Nat) : OpOut V E :=
  let s := setCacheAux caches key v ttl 0
  ⟨s.1, s.2.1, s.2.2⟩

/-- `TieredCache.Delete` (src/unnamed/part_002 lines 143-150). -/
def TieredCache.Delete (caches : List (Cacher V E)) (key : String) : OpOut V E :=
  let d := deleteAux caches key 0
  ⟨d.1, d.2.1, d.2.2⟩

/-! ## Batch side (`src/batch_tiered_cache.go`) -/

/-- Lookup in a Go `map[string]V` modelled as an association list. -/
def mLookup (m : List (String × V)) (k : String) : Option V :=
  (m.find? (fun p => p.1 == k)).map (·.2)

/-- `m[k] = v` on a Go map model: overwrite or append. -/
def mUpsert (m : List (String × V)) (k : String) (v : V) : List (String × V) :=
  if m.any (fun p => p.1 == k) then
    m.map (fun p => if p.1 == k then (p.1, v) else p)
  else m ++ [(k, v)]

/-- `for k, v := range add { m[k] = v }`. -/
def mergeAssoc (m add : List (String × V)) : List (String × V) :=
  add.foldl (fun acc kv => mUpsert acc kv.1 kv.2) m

/-- `filterMissingKeys` (src/batch_tiered_cache.go lines 131-140): the
keys not present in the found map, in input order. -/
def filterMissingKeys (keys : List String) (found : List (String × V)) :
    List String :=
  keys.filter (fun k => !(found.any (fun p => p.1 == k)))

/-- Model of a backend implementing `BatchCacher[V]`: a store plus fault
injection (`bgetErr keys` is a whole-call `BatchGet` error for that key
set, `bsetErr` a whole-call `BatchSet` error). -/
structure BatchCacher (V E : Type) where
  store : List (String × V × Nat)
  bgetErr : List String → Option E
  bsetErr : Option E

/-- Contents of a batch tier at a key. -/
def BatchCacher.blookup (c : BatchCacher V E) (k : String) : Option (V × Nat) :=
  (c.store.find? (fun p => p.1 == k)).map (·.2)

/-- Backend `BatchGet`: injected whole-call error, else the found subset
of the requested keys (absent keys are simply omitted, per the
`BatchCacher` contract in `src/cache.go`). -/
def BatchCacher.batchGet (c : BatchCacher V E) (keys : List String) :
    Except E (List (String × V)) :=
  match c.bgetErr keys with
  | some e => .error e
  | none => .ok (keys.filterMap (fun k => (c.blookup k).map (fun vt => (k, vt.1))))

/-- Successful batch store update: overwrite every item. -/
def BatchCacher.putAll (c : BatchCacher V E) (items : List (String × V))
    (ttl : Nat) : BatchCacher V E :=
  items.foldl
    (fun acc kv =>
      { acc with store := (kv.1, kv.2, ttl) :: acc.store.filter (fun p => p.1 != kv.1) })
    c

/-- Backend `BatchSet`: injected whole-call error (store unchanged) or
store every item with the shared ttl. -/
def BatchCacher.batchSet (c : BatchCacher V E) (items : List (String × V))
    (ttl : Nat) : Option E × BatchCacher V E :=
  match c.bsetErr with
  | some e => (some e, c)
  | none => (none, c.putAll items ttl)

/-- `BatchComputeFunc[V]` of `src/batch_tiered_cache.go`. -/
def BatchComputeFunc (V E : Type) :=
  List String → Except (GoErr E) (List (String × V))

/-- `BatchTieredCache.populateUpperTiers` (src/batch_tiered_cache.go
lines 99-106) restricted to the strict prefix of tiers below the hit
tier (exactly the tiers the Go loop `i < foundTierIndex && i <
len(bc.caches)` visits): `BatchSet` each, stopping at the first error
(the error itself is discarded by the caller). -/
def bPopAux : List (BatchCacher V E) → List (String × V) → Nat → Nat →
    List (BatchCacher V E) × List (Ev V)
  | [], _, _, _ => ([], [])
  | c :: rest, items, ttl, i =>
    match c.batchSet items ttl with
    | (some _, c') => (c' :: rest, [.batchSetCall i items ttl])
    | (none, c') =>
      let r := bPopAux rest items ttl (i + 1)
      (c' :: r.1, .batchSetCall i items ttl :: r.2)

/-- The post-compute write loop of `BatchTieredCache.BatchGet`
(src/batch_tiered_cache.go lines 84-86): `BatchSet` the computed values
into every tier, each error discarded (no early stop). -/
def bSetAllIgnore : List (BatchCacher V E) → List (String × V) → Nat → Nat →
    List (BatchCacher V E) × List (Ev V)
  | [], _, _, _ => ([], [])
  | c :: rest, items, ttl, i =>
    let s := c.batchSet items ttl
    let r := bSetAllIgnore rest items ttl (i + 1)
    (s.2 :: r.1, .batchSetCall i items ttl :: r.2)

/-- State after the tier loop of `BatchTieredCache.BatchGet`. -/
structure BgState (V E : Type) where
  caches : List (BatchCacher V E)
  results : List (String × V)
  remaining : List String
  trace : List (Ev V)

/-- The tier loop of `BatchTieredCache.BatchGet` (src/batch_tiered_cache.go
lines 50-70), written with the already-visited tiers as an explicit
`processed` prefix (so `processed.length` is the Go `tierIndex`): break
when no keys remain; a tier-level `BatchGet` error or an empty result
skips the tier; a non-empty result is merged into `results`, backfilled
into the strictly-upper tiers when `tierIndex > 0` (error discarded),
and removed from `remaining`. -/
def bgLoop (ttl : Nat) :
    List (BatchCacher V E) → List (BatchCacher V E) → List String →
    List (String × V) → List (Ev V) → BgState V E
  | processed, [], remaining, results, trace =>
    ⟨processed, results, remaining, trace⟩
  | processed, c :: rest, remaining, results, trace =>
    if remaining.isEmpty then ⟨processed ++ c :: rest, results, remaining, trace⟩
    else
      match c.batchGet remaining with
      | .error _ =>
        bgLoop ttl (processed ++ [c]) rest remaining results
          (trace ++ [.batchGetCall processed.length remaining])
      | .ok tierResults =>
        if tierResults.isEmpty then
          bgLoop ttl (processed ++ [c]) rest remaining results
            (trace ++ [.batchGetCall processed.length remaining])
        else
          let upd :=
            if 0 < processed.length then bPopAux processed tierResults ttl 0
            else (processed, [])
          bgLoop ttl (upd.1 ++ [c]) rest
            (filterMissingKeys remaining tierResults)
            (mergeAssoc results tierResults)
            (trace ++ [.batchGetCall processed.length remaining] ++ upd.2)

/-- Outcome of `BatchTieredCache.BatchGet`: Go's `(map[string]V, error)`
pair, plus the final tier states and the call trace. -/
structure BatchOut (V E : Type) where
  results : List (String × V)
  err : Option (GoErr E)
  caches : List (BatchCacher V E)
  trace : List (Ev V)

/-- `NewBatchTieredCache` (src/batch_tiered_cache.go lines 22-33). -/
def NewBatchTieredCache (opts : List (Option (BatchCacher V E))) :
    List (BatchCacher V E) :=
  opts.filterMap id

/-- `BatchTieredCache.BatchGet` (src/batch_tiered_cache.go lines 41-96):
empty input returns an empty map at once; otherwise run the tier loop;
if keys remain, invoke the batch compute function once on them — its
error is returned alongside the partial results; a non-empty computed
map is written to every tier (errors discarded) and merged in. -/
def BatchTieredCache.BatchGet (caches : List (BatchCacher V E))
    (keys : List String) (ttl : Nat) (batchComputeFn : BatchComputeFunc V E) :
    BatchOut V E :=
  if keys.isEmpty then ⟨[], none, caches, []⟩
  else
    let L := bgLoop ttl [] caches keys [] []
    if L.remaining.isEmpty then ⟨L.results, none, L.caches, L.trace⟩
    else
      match batchComputeFn L.remaining with
      | .error e =>
        ⟨L.results, some e, L.caches, L.trace ++ [.batchComputeCall L.remaining]⟩
      | .ok computedValues =>
        if computedValues.isEmpty then
          ⟨L.results, none, L.caches, L.trace ++ [.batchComputeCall L.remaining]⟩
        else
          let w := bSetAllIgnore L.caches computedValues ttl 0
          ⟨mergeAssoc L.results computedValues, none, w.1,
            L.trace ++ [.batchComputeCall L.remaining] ++ w.2⟩

/-- Value stored at `k` in tier `i` of a single-key tier list. -/
def cVal (caches : List (Cacher V E)) (i : Nat) (k : String) : Option V :=
  (caches.get? i).bind (fun c => (c.lookup k).map (·.1))

/-- Value stored at `k` in tier `i` of a batch tier list. -/
def bVal (caches : List (BatchCacher V E)) (i : Nat) (k : String) : Option V :=
  (caches.get? i).bind (fun c => (c.blookup k).map (·.1))

instance {ε α : Type} [DecidableEq ε] [DecidableEq α] :
    DecidableEq (Except ε α) := fun a b =>
  match a, b with
  | .error e, .error e' =>
    if h : e = e' then .isTrue (by rw [h]) else .isFalse (by simp [h])
  | .error _, .ok _ => .isFalse (by simp)
  | .ok _, .error _ => .isFalse (by simp)
  | .ok v, .ok v' =>
    if h : v = v' then .isTrue (by rw [h]) else .isFalse (by simp [h])

/-! ## Theorems -/

/-! ### Tier-traversal lemmas for `getCache` -/

theorem getCacheAux_cons_miss {c : Cacher V E} {key : String}
    (rest : List (Cacher V E)) (i : Nat)
    (h : c.get key = .error .cacheMiss) :
    getCacheAux (c :: rest) key i =
      ((getCacheAux rest key (i + 1)).1,
        .getCall i key :: (getCacheAux rest key (i + 1)).2) := by
  simp [getCacheAux, h]

theorem getCacheAux_cons_hit {c : Cacher V E} {key : String} {v : V}
    (rest : List (Cacher V E)) (i : Nat) (h : c.get key = .ok v) :
    getCacheAux (c :: rest) key i = (.hit v i, [.getCall i key]) := by
  simp [getCacheAux, h]

theorem getCacheAux_cons_fail {c : Cacher V E} {key : String} {e : E}
    (rest : List (Cacher V E)) (i : Nat)
    (h : c.get key = .error (.other e)) :
    getCacheAux (c :: rest) key i = (.fail (.other e), [.getCall i key]) := by
  simp [getCacheAux, h]

/-- Walking a prefix of tiers that all miss accumulates their `Get`
events and continues at the shifted index. -/
theorem getCacheAux_append_miss (pre rest : List (Cacher V E)) (key : String)
    (i : Nat) (h : ∀ c ∈ pre, c.get key = .error .cacheMiss) :
    getCacheAux (pre ++ rest) key i =
      ((getCacheAux rest key (i + pre.length)).1,
        (List.range pre.length).map (fun j => Ev.getCall (i + j) key) ++
          (getCacheAux rest key (i + pre.length)).2) := by
  induction pre generalizing i with
  | nil => simp
  | cons c pre ih =>
    have hc : c.get key = .error .cacheMiss := h c (by simp)
    rw [List.cons_append, getCacheAux_cons_miss _ i hc,
      ih (i + 1) (fun c' hc' => h c' (by simp [hc']))]
    refine Prod.ext ?_ ?_
    · simp [Nat.add_assoc, Nat.add_comm 1 pre.length]
    · simp only [List.length_cons, List.range_succ_eq_map, List.map_cons,
        List.map_map, Nat.add_zero, List.cons_append]
      refine congrArg₂ _ rfl (congrArg₂ _ (List.map_congr_left ?_) ?_)
      · intro j _
        simp [Function.comp, Nat.add_assoc, Nat.add_comm 1 j]
      · simp [Nat.add_assoc, Nat.add_comm 1 pre.length]

/-- If every tier misses at `key`, `getCache` reports a full miss and
the trace is one `Get` event per tier. -/
theorem getCacheAux_all_miss (cs : List (Cacher V E)) (key : String) (i : Nat)
    (h : ∀ c ∈ cs, c.get key = .error .cacheMiss) :
    getCacheAux cs key i =
      (.missAll, (List.range cs.length).map (fun j => Ev.getCall (i + j) key)) := by
  have := getCacheAux_append_miss cs [] key i h
  simpa [getCacheAux] using this

/-! ### Backfill and write-through lemmas -/

theorem range_map_shift {α : Type} (n i : Nat) (g : Nat → α) :
    (List.range (n + 1)).map (fun j => g (i + j)) =
      g i :: (List.range n).map (fun j => g ((i + 1) + j)) := by
  simp only [List.range_succ_eq_map, List.map_cons, List.map_map, Nat.add_zero]
  refine congrArg₂ _ rfl (List.map_congr_left ?_)
  intro j _
  simp [Function.comp, Nat.add_assoc, Nat.add_comm 1 j]

theorem Cacher.lookup_put (c : Cacher V E) (k : String) (v : V) (ttl : Nat) :
    (c.put k v ttl).lookup k = some (v, ttl) := by
  simp [Cacher.put, Cacher.lookup, List.find?]

/-- `populateUpperTiers` when the first `Set` error among the walked
tiers occurs at index `i + p1.length`: the tiers before it are written,
the loop stops there, and the error is returned (to be discarded by the
caller); the failing tier and everything after it keep their state. -/
theorem popUpperAux_abort (p1 rest : List (Cacher V E)) (bad : Cacher V E)
    (key : String) (v : V) (ttl : Nat) (i bound : Nat) (e : E)
    (h1 : ∀ c ∈ p1, c.setErr key = none) (hbad : bad.setErr key = some e)
    (hb : i + p1.length < bound) :
    popUpperAux (p1 ++ bad :: rest) key v ttl i bound =
      (some (.other e), p1.map (fun c => c.put key v ttl) ++ bad :: rest,
        (List.range p1.length).map (fun j => Ev.setCall (i + j) key v ttl) ++
          [Ev.setCall (i + p1.length) key v ttl]) := by
  induction p1 generalizing i with
  | nil =>
    have hi : i < bound := by simpa using hb
    simp [popUpperAux, hi, Cacher.set, hbad]
  | cons c p1 ih =>
    have hb0 : i + (p1.length + 1) < bound := by simpa using hb
    have hi : i < bound := by omega
    have hc : c.setErr key = none := h1 c (by simp)
    have hrec := ih (i + 1) (fun c' hc' => h1 c' (by simp [hc'])) (by omega)
    have harith : i + 1 + p1.length = i + (p1.length + 1) := by omega
    simp only [List.cons_append, List.append_eq, popUpperAux, hi, if_true,
      Cacher.set, hc, hrec, List.map_cons, List.length_cons,
      range_map_shift p1.length i (fun j => Ev.setCall j key v ttl),
      harith]

/-- `populateUpperTiers` when every walked tier's `Set` succeeds: the
whole prefix below the hit tier is written, one `Set` event per tier,
and no error is returned. -/
theorem popUpperAux_ok (p1 rest : List (Cacher V E)) (key : String) (v : V)
    (ttl i bound : Nat) (h : ∀ c ∈ p1, c.setErr key = none)
    (hb : i + p1.length = bound) :
    popUpperAux (p1 ++ rest) key v ttl i bound =
      (none, p1.map (fun c => c.put key v ttl) ++ rest,
        (List.range p1.length).map (fun j => Ev.setCall (i + j) key v ttl)) := by
  induction p1 generalizing i with
  | nil =>
    have hi : ¬ i < bound := by simp at hb; omega
    cases rest with
    | nil => simp [popUpperAux]
    | cons c rest => simp [popUpperAux, hi]
  | cons c p1 ih =>
    have hb0 : i + (p1.length + 1) = bound := by simpa using hb
    have hi : i < bound := by omega
    have hc : c.setErr key = none := h c (by simp)
    have hrec := ih (i + 1) (fun c' hc' => h c' (by simp [hc'])) (by omega)
    simp only [List.cons_append, List.append_eq, popUpperAux, hi, if_true,
      Cacher.set, hc, hrec, List.map_cons, List.length_cons,
      range_map_shift p1.length i (fun j => Ev.setCall j key v ttl)]

/-- Every event emitted by `populateUpperTiers` is a `Set` event. -/
theorem popUpperAux_trace_shape (cs : List (Cacher V E)) (key : String)
    (v : V) (ttl : Nat) :
    ∀ i bound, ∀ ev ∈ (popUpperAux cs key v ttl i bound).2.2,
      ∃ j, ev = Ev.setCall j key v ttl := by
  induction cs with
  | nil => simp [popUpperAux]
  | cons c cs ih =>
    intro i bound
    by_cases hi : i < bound
    · cases hcs : c.set key v ttl with
      | mk o c' =>
        cases o with
        | some e =>
          simp only [popUpperAux, hi, if_true, hcs, List.mem_singleton]
          rintro ev rfl
          exact ⟨i, rfl⟩
        | none =>
          simp only [popUpperAux, hi, if_true, hcs, List.mem_cons]
          rintro ev (rfl | hev)
          · exact ⟨i, rfl⟩
          · exact ih (i + 1) bound ev hev
    · simp [popUpperAux, hi]

/-- `setCache` when every tier's `Set` succeeds: all tiers are written
and one `Set` event is emitted per tier. -/
theorem setCacheAux_all_ok (cs : List (Cacher V E)) (key : String) (v : V)
    (ttl : Nat) (i : Nat) (h : ∀ c ∈ cs, c.setErr key = none) :
    setCacheAux cs key v ttl i =
      (none, cs.map (fun c => c.put key v ttl),
        (List.range cs.length).map (fun j => Ev.setCall (i + j) key v ttl)) := by
  induction cs generalizing i with
  | nil => simp [setCacheAux]
  | cons c cs ih =>
    have hc : c.setErr key = none := h c (by simp)
    have hrec := ih (i + 1) (fun c' hc' => h c' (by simp [hc']))
    simp only [setCacheAux, List.append_eq, Cacher.set, hc, hrec,
      List.map_cons, List.length_cons,
      range_map_shift cs.length i (fun j => Ev.setCall j key v ttl)]

/-- `setCache` when the first `Set` error occurs at index
`i + pre.length`: earlier tiers are written, the loop stops, the error
is returned, and the failing tier and all later tiers keep their state. -/
theorem setCacheAux_abort (pre post : List (Cacher V E)) (bad : Cacher V E)
    (key : String) (v : V) (ttl : Nat) (i : Nat) (e : E)
    (h1 : ∀ c ∈ pre, c.setErr key = none) (hbad : bad.setErr key = some e) :
    setCacheAux (pre ++ bad :: post) key v ttl i =
      (some (.other e), pre.map (fun c => c.put key v ttl) ++ bad :: post,
        (List.range pre.length).map (fun j => Ev.setCall (i + j) key v ttl) ++
          [Ev.setCall (i + pre.length) key v ttl]) := by
  induction pre generalizing i with
  | nil => simp [setCacheAux, Cacher.set, hbad]
  | cons c pre ih =>
    have hc : c.setErr key = none := h1 c (by simp)
    have hrec := ih (i + 1) (fun c' hc' => h1 c' (by simp [hc']))
    have harith : i + 1 + pre.length = i + (pre.length + 1) := by omega
    simp only [List.cons_append, List.append_eq, setCacheAux, Cacher.set,
      hc, hrec, List.map_cons, List.length_cons,
      range_map_shift pre.length i (fun j => Ev.setCall j key v ttl),
      harith]

/-- Evaluation of the hit path of `TieredCache.Get` at a tier index
`i > 0`. -/
theorem TieredCache.Get_hit (caches : List (Cacher V E)) (key : String)
    (ttl : Nat) (f : ComputeFunc V E) (v : V) (i : Nat) (tr : List (Ev V))
    (hg : getCacheAux caches key 0 = (.hit v i, tr)) (hi : 0 < i) :
    TieredCache.Get caches key ttl f =
      ⟨.ok v, (popUpperAux caches key v ttl 0 i).2.1,
        tr ++ (popUpperAux caches key v ttl 0 i).2.2⟩ := by
  simp [TieredCache.Get, hg, hi]

/-- Evaluation of the full-miss path of `TieredCache.Get` when the
compute function succeeds and the write-through fails at some tier. -/
theorem TieredCache.Get_compute_setFail (caches cs' : List (Cacher V E))
    (key : String) (ttl : Nat) (f : ComputeFunc V E) (v : V)
    (tr str : List (Ev V)) (e : GoErr E)
    (hg : getCacheAux caches key 0 = (.missAll, tr)) (hf : f key = .ok v)
    (hs : setCacheAux caches key v ttl 0 = (some e, cs', str)) :
    TieredCache.Get caches key ttl f =
      ⟨.error e, cs', tr ++ tr ++ [.computeCall key] ++ str⟩ := by
  simp [TieredCache.Get, hg, hf, hs]

/-- Evaluation of the full-miss path of `TieredCache.Get` when the
compute function succeeds and the write-through succeeds on all tiers. -/
theorem TieredCache.Get_compute_setOk (caches cs' : List (Cacher V E))
    (key : String) (ttl : Nat) (f : ComputeFunc V E) (v : V)
    (tr str : List (Ev V))
    (hg : getCacheAux caches key 0 = (.missAll, tr)) (hf : f key = .ok v)
    (hs : setCacheAux caches key v ttl 0 = (none, cs', str)) :
    TieredCache.Get caches key ttl f =
      ⟨.ok v, cs', tr ++ tr ++ [.computeCall key] ++ str⟩ := by
  simp [TieredCache.Get, hg, hf, hs]

/-- C3 counterexample to the claim as stated.  Three tiers, the value is
hit at tier 2, tier 0's backfill `Set` fails: `populateUpperTiers`
returns at the first error, so the backfill `Set` on tier 1 is **never
attempted** (no `Set` event for tier 1, tier 1 still empty afterward),
contradicting "a failure on one upper tier does not prevent the backfill
attempt on the other upper tiers".  The value itself is still returned
with nil error. -/
theorem C3_counterexample :
    (let out := TieredCache.Get
      [(⟨[], fun _ => none, fun _ => some 9, fun _ => none⟩ : Cacher Nat Nat),
       ⟨[], fun _ => none, fun _ => none, fun _ => none⟩,
       ⟨[("k", 5, 3)], fun _ => none, fun _ => none, fun _ => none⟩]
      "k" 7 (fun _ => .error .cacheMiss)
    out.result = .ok 5 ∧
    Ev.setCall 0 "k" 5 7 ∈ out.trace ∧
    Ev.setCall 1 "k" 5 7 ∉ out.trace ∧
    cVal out.caches 1 "k" = none) := by
  decide

/-- C3 (amended): for every `Get` hitting at tier index i > 0, backfill
`Set` runs over the tiers with index < i in order with the retrieved
value and the caller-supplied ttl, stopping at the first `Set` error;
when every upper `Set` succeeds, all upper tiers are written; when the
first error occurs at any upper position, the tiers before it are
written and the failing tier and the ones after it are left untouched;
in all cases no backfill error is surfaced, the compute function is not
invoked, and `Get` returns the retrieved value with nil error. -/
theorem C3_backfill_best_effort (pre post : List (Cacher V E))
    (hitc : Cacher V E) (key : String) (ttl : Nat) (f : ComputeFunc V E)
    (v : V)
    (hpre : ∀ c ∈ pre, c.get key = .error .cacheMiss)
    (hne : pre ≠ [])
    (hh : hitc.get key = .ok v) :
    (TieredCache.Get (pre ++ hitc :: post) key ttl f).result = .ok v ∧
    Ev.computeCall key ∉ (TieredCache.Get (pre ++ hitc :: post) key ttl f).trace ∧
    ((∀ c ∈ pre, c.setErr key = none) →
      (TieredCache.Get (pre ++ hitc :: post) key ttl f).caches =
        pre.map (fun c => c.put key v ttl) ++ hitc :: post) ∧
    (∀ p1 p2 (bad : Cacher V E) (e : E), pre = p1 ++ bad :: p2 →
      (∀ c ∈ p1, c.setErr key = none) → bad.setErr key = some e →
      (TieredCache.Get (pre ++ hitc :: post) key ttl f).caches =
        p1.map (fun c => c.put key v ttl) ++ bad :: (p2 ++ hitc :: post)) := by
  have hm : 0 < pre.length := List.length_pos.mpr hne
  have hg : getCacheAux (pre ++ hitc :: post) key 0 =
      (.hit v pre.length,
        (List.range pre.length).map (fun j => Ev.getCall (0 + j) key) ++
          [Ev.getCall (0 + pre.length) key]) := by
    rw [getCacheAux_append_miss _ _ key 0 hpre,
      getCacheAux_cons_hit post (0 + pre.length) hh]
    rw [Nat.zero_add]
  rw [TieredCache.Get_hit _ key ttl f v _ _ hg hm]
  refine ⟨rfl, ?_, ?_, ?_⟩
  · intro hmem
    rcases List.mem_append.mp hmem with h | h
    · rcases List.mem_append.mp h with h | h
      · simp at h
      · simp at h
    · rcases popUpperAux_trace_shape _ key v ttl 0 pre.length _ h with ⟨j, hj⟩
      simp at hj
  · intro hok
    have hp := popUpperAux_ok pre (hitc :: post) key v ttl 0 pre.length hok
      (by omega)
    rw [hp]
  · intro p1 p2 bad e hsplit h1s hbs
    have hp : popUpperAux (pre ++ hitc :: post) key v ttl 0 pre.length =
        (some (.other e),
          p1.map (fun c => c.put key v ttl) ++ bad :: (p2 ++ hitc :: post),
          (List.range p1.length).map (fun j => Ev.setCall (0 + j) key v ttl) ++
            [Ev.setCall (0 + p1.length) key v ttl]) := by
      rw [hsplit]
      have hl : (p1 ++ bad :: p2) ++ hitc :: post =
          p1 ++ bad :: (p2 ++ hitc :: post) := by
        simp
      rw [hl]
      exact popUpperAux_abort p1 (p2 ++ hitc :: post) bad key v ttl 0 _ e
        h1s hbs (by simp)
    rw [hp]

/-- Witness for the amended C3, both branches.  All-ok: two tiers, hit
at tier 1, tier 0 is backfilled and the value returned with nil error.
Failing: four tiers, hit at tier 3, tier 1's backfill fails: tier 0 is
backfilled, tier 2 is untouched, and the value is still returned with
nil error. -/
theorem C3_backfill_best_effort_witness :
    (TieredCache.Get
      ([(⟨[], fun _ => none, fun _ => none, fun _ => none⟩ : Cacher Nat Nat)] ++
        (⟨[("k", 5, 3)], fun _ => none, fun _ => none, fun _ => none⟩ : Cacher Nat Nat) :: [])
      "k" 7 (fun _ => .error .cacheMiss)).result = .ok 5 ∧
    cVal (TieredCache.Get
      ([(⟨[], fun _ => none, fun _ => none, fun _ => none⟩ : Cacher Nat Nat)] ++
        (⟨[("k", 5, 3)], fun _ => none, fun _ => none, fun _ => none⟩ : Cacher Nat Nat) :: [])
      "k" 7 (fun _ => .error .cacheMiss)).caches 0 "k" = some 5 ∧
    (TieredCache.Get
      ([(⟨[], fun _ => none, fun _ => none, fun _ => none⟩ : Cacher Nat Nat),
        ⟨[], fun _ => none, fun _ => some 9, fun _ => none⟩,
        ⟨[], fun _ => none, fun _ => none, fun _ => none⟩] ++
        (⟨[("k", 5, 3)], fun _ => none, fun _ => none, fun _ => none⟩ : Cacher Nat Nat) :: [])
      "k" 7 (fun _ => .error .cacheMiss)).result = .ok 5 ∧
    cVal (TieredCache.Get
      ([(⟨[], fun _ => none, fun _ => none, fun _ => none⟩ : Cacher Nat Nat),
        ⟨[], fun _ => none, fun _ => some 9, fun _ => none⟩,
        ⟨[], fun _ => none, fun _ => none, fun _ => none⟩] ++
        (⟨[("k", 5, 3)], fun _ => none, fun _ => none, fun _ => none⟩ : Cacher Nat Nat) :: [])
      "k" 7 (fun _ => .error .cacheMiss)).caches 2 "k" = none := by
  have ha := C3_backfill_best_effort
    [(⟨[], fun _ => none, fun _ => none, fun _ => none⟩ : Cacher Nat Nat)] []
    ⟨[("k", 5, 3)], fun _ => none, fun _ => none, fun _ => none⟩
    "k" 7 (fun _ => .error .cacheMiss) 5
    (by intro c hc; simp at hc; subst hc; rfl) (by simp) rfl
  have hb := C3_backfill_best_effort
    [(⟨[], fun _ => none, fun _ => none, fun _ => none⟩ : Cacher Nat Nat),
     ⟨[], fun _ => none, fun _ => some 9, fun _ => none⟩,
     ⟨[], fun _ => none, fun _ => none, fun _ => none⟩] []
    ⟨[("k", 5, 3)], fun _ => none, fun _ => none, fun _ => none⟩
    "k" 7 (fun _ => .error .cacheMiss) 5
    (by intro c hc; simp at hc; rcases hc with rfl | rfl | rfl <;> rfl)
    (by simp) rfl
  refine ⟨ha.1, ?_, hb.1, ?_⟩
  · rw [ha.2.2.1 (by intro c hc; simp at hc; subst hc; rfl)]
    decide
  · rw [hb.2.2.2
      [⟨[], fun _ => none, fun _ => none, fun _ => none⟩]
      [⟨[], fun _ => none, fun _ => none, fun _ => none⟩]
      ⟨[], fun _ => none, fun _ => some 9, fun _ => none⟩ 9 rfl
      (by intro c hc; simp at hc; subst hc; rfl) rfl]
    decide

/-- C4: on a full miss with a successful compute, the freshly computed
value is written through: when every tier's `Set` succeeds the value is
stored in all tiers (with the caller's ttl) and returned with nil error;
when some tier's `Set` fails, the first such error is returned to the
caller even though the compute succeeded (the compute ran — its event is
in the trace — and the failing `Set` was attempted). -/
theorem C4_write_through_error_surfaced (caches : List (Cacher V E))
    (key : String) (ttl : Nat) (f : ComputeFunc V E) (v : V)
    (hmiss : ∀ c ∈ caches, c.get key = .error .cacheMiss)
    (hf : f key = .ok v) :
    ((∀ c ∈ caches, c.setErr key = none) →
      (TieredCache.Get caches key ttl f).result = .ok v ∧
      (TieredCache.Get caches key ttl f).caches =
        caches.map (fun c => c.put key v ttl) ∧
      (∀ c' ∈ (TieredCache.Get caches key ttl f).caches,
        c'.lookup key = some (v, ttl))) ∧
    (∀ pre post (bad : Cacher V E) (e : E), caches = pre ++ bad :: post →
      (∀ c ∈ pre, c.setErr key = none) → bad.setErr key = some e →
      (TieredCache.Get caches key ttl f).result = .error (.other e) ∧
      (TieredCache.Get caches key ttl f).caches =
        pre.map (fun c => c.put key v ttl) ++ bad :: post ∧
      Ev.computeCall key ∈ (TieredCache.Get caches key ttl f).trace ∧
      Ev.setCall pre.length key v ttl ∈ (TieredCache.Get caches key ttl f).trace) := by
  have hg : getCacheAux caches key 0 =
      (.missAll, (List.range caches.length).map (fun j => Ev.getCall (0 + j) key)) :=
    getCacheAux_all_miss caches key 0 hmiss
  constructor
  · intro hok
    rw [TieredCache.Get_compute_setOk caches
      (caches.map (fun c => c.put key v ttl)) key ttl f v _ _ hg hf
      (setCacheAux_all_ok caches key v ttl 0 hok)]
    refine ⟨rfl, rfl, ?_⟩
    intro c' hc'
    rcases List.mem_map.mp hc' with ⟨c, _, rfl⟩
    exact Cacher.lookup_put c key v ttl
  · intro pre post bad e hsplit hok hbad
    rw [TieredCache.Get_compute_setFail caches
      (pre.map (fun c => c.put key v ttl) ++ bad :: post) key ttl f v _ _
      (.other e) hg hf (by rw [hsplit]; exact setCacheAux_abort pre post bad key v ttl 0 e hok hbad)]
    refine ⟨rfl, rfl, by simp, by simp⟩

/-- Witness for C4: an empty healthy tier plus an empty tier whose `Set`
fails with error 8; the compute function returns 6; `Get` surfaces the
`Set` error.  The all-success conjunct is witnessed with two healthy
tiers. -/
theorem C4_write_through_error_surfaced_witness :
    (TieredCache.Get
      [(⟨[], fun _ => none, fun _ => none, fun _ => none⟩ : Cacher Nat Nat),
       ⟨[], fun _ => none, fun _ => some 8, fun _ => none⟩]
      "k" 7 (fun _ => .ok 6)).result = .error (.other 8) ∧
    (TieredCache.Get
      [(⟨[], fun _ => none, fun _ => none, fun _ => none⟩ : Cacher Nat Nat),
       ⟨[], fun _ => none, fun _ => none, fun _ => none⟩]
      "k" 7 (fun _ => .ok 6)).result = .ok 6 := by
  constructor
  · have h := C4_write_through_error_surfaced
      (V := Nat) (E := Nat)
      [⟨[], fun _ => none, fun _ => none, fun _ => none⟩,
       ⟨[], fun _ => none, fun _ => some 8, fun _ => none⟩]
      "k" 7 (fun _ => .ok 6) 6
      (by intro c hc; simp at hc; rcases hc with rfl | rfl <;> rfl) rfl
    exact (h.2 [⟨[], fun _ => none, fun _ => none, fun _ => none⟩]
      [] ⟨[], fun _ => none, fun _ => some 8, fun _ => none⟩ 8 rfl
      (by intro c hc; simp at hc; subst hc; rfl) rfl).1
  · have h := C4_write_through_error_surfaced
      (V := Nat) (E := Nat)
      [⟨[], fun _ => none, fun _ => none, fun _ => none⟩,
       ⟨[], fun _ => none, fun _ => none, fun _ => none⟩]
      "k" 7 (fun _ => .ok 6) 6
      (by intro c hc; simp at hc; subst hc; rfl) rfl
    exact (h.1 (by intro c hc; simp at hc; subst hc; rfl)).1

/-! ### Delete lemmas -/

theorem find_filter_none (l : List (String × V × Nat)) (k : String) :
    (l.filter (fun p => p.1 != k)).find? (fun p => p.1 == k) = none := by
  induction l with
  | nil => rfl
  | cons p l ih =>
    cases h : (p.1 == k) with
    | false => simp [List.filter_cons, bne, h, List.find?_cons, ih]
    | true => simp [List.filter_cons, bne, h, ih]

/-- After a `Delete` whose backend call does not fail (success or miss),
the tier no longer holds the key. -/
theorem Cacher.delete_lookup_none (c : Cacher V E) (k : String)
    (h : c.delErr k = none) : ((c.delete k).2).lookup k = none := by
  by_cases hl : (c.lookup k).isSome
  · have hdel : c.delete k =
        (none, { c with store := c.store.filter (fun p => p.1 != k) }) := by
      simp [Cacher.delete, h, hl]
    rw [hdel]
    simp [Cacher.lookup, find_filter_none]
  · have hdel : c.delete k = (some .cacheMiss, c) := by
      simp [Cacher.delete, h, hl]
    rw [hdel]
    exact Option.not_isSome_iff_eq_none.mp hl

/-- The `Delete` loop when every tier's backend `Delete` either succeeds
or reports a miss: every tier is visited, no error is returned. -/
theorem deleteAux_ok_all (cs : List (Cacher V E)) (key : String) (i : Nat)
    (h : ∀ c ∈ cs, c.delErr key = none) :
    deleteAux cs key i =
      (none, cs.map (fun c => (c.delete key).2),
        (List.range cs.length).map (fun j => Ev.delCall (i + j) key)) := by
  induction cs generalizing i with
  | nil => simp [deleteAux]
  | cons c cs ih =>
    have hc : c.delErr key = none := h c (by simp)
    have hrec := ih (i + 1) (fun c' hc' => h c' (by simp [hc']))
    by_cases hl : (c.lookup key).isSome
    · have hdel : c.delete key =
          (none, { c with store := c.store.filter (fun p => p.1 != key) }) := by
        simp [Cacher.delete, hc, hl]
      simp only [deleteAux, hdel, hrec, List.map_cons, List.length_cons,
        range_map_shift cs.length i (fun j => Ev.delCall j key)]
    · have hdel : c.delete key = (some .cacheMiss, c) := by
        simp [Cacher.delete, hc, hl]
      simp only [deleteAux, hdel, hrec, List.map_cons, List.length_cons,
        range_map_shift cs.length i (fun j => Ev.delCall j key)]

/-- The `Delete` loop when the first non-miss backend error occurs at
index `i + pre.length`: deletion was attempted on every earlier tier,
the loop aborts there, and the error is returned; the failing tier and
all later tiers keep their state. -/
theorem deleteAux_abort (pre post : List (Cacher V E)) (bad : Cacher V E)
    (key : String) (i : Nat) (e : E)
    (hpre : ∀ c ∈ pre, c.delErr key = none) (hbad : bad.delErr key = some e) :
    deleteAux (pre ++ bad :: post) key i =
      (some (.other e), pre.map (fun c => (c.delete key).2) ++ bad :: post,
        (List.range pre.length).map (fun j => Ev.delCall (i + j) key) ++
          [Ev.delCall (i + pre.length) key]) := by
  induction pre generalizing i with
  | nil => simp [deleteAux, Cacher.delete, hbad]
  | cons c pre ih =>
    have hc : c.delErr key = none := hpre c (by simp)
    have hrec := ih (i + 1) (fun c' hc' => hpre c' (by simp [hc']))
    have harith : i + 1 + pre.length = i + (pre.length + 1) := by omega
    by_cases hl : (c.lookup key).isSome
    · have hdel : c.delete key =
          (none, { c with store := c.store.filter (fun p => p.1 != key) }) := by
        simp [Cacher.delete, hc, hl]
      simp only [List.cons_append, List.append_eq, deleteAux, hdel, hrec,
        List.map_cons, List.length_cons,
        range_map_shift pre.length i (fun j => Ev.delCall j key), harith]
    · have hdel : c.delete key = (some .cacheMiss, c) := by
        simp [Cacher.delete, hc, hl]
      simp only [List.cons_append, List.append_eq, deleteAux, hdel, hrec,
        List.map_cons, List.length_cons,
        range_map_shift pre.length i (fun j => Ev.delCall j key), harith]

/-- C7: `Delete` is attempted on every tier in order; a tier's miss is
tolerated (not surfaced) and deletion continues; when every tier either
deletes the key or reports a miss, `Delete` returns nil and afterward no
tier holds the key; the first non-miss error aborts immediately (later
tiers keep their state and are not visited) and is returned. -/
theorem C7_delete_independence (caches : List (Cacher V E)) (key : String) :
    ((∀ c ∈ caches, c.delErr key = none) →
      (TieredCache.Delete caches key).err = none ∧
      (TieredCache.Delete caches key).trace =
        (List.range caches.length).map (fun j => Ev.delCall j key) ∧
      ∀ c' ∈ (TieredCache.Delete caches key).caches, c'.lookup key = none) ∧
    (∀ pre post (bad : Cacher V E) (e : E), caches = pre ++ bad :: post →
      (∀ c ∈ pre, c.delErr key = none) → bad.delErr key = some e →
      (TieredCache.Delete caches key).err = some (.other e) ∧
      (TieredCache.Delete caches key).caches =
        pre.map (fun c => (c.delete key).2) ++ bad :: post ∧
      (TieredCache.Delete caches key).trace =
        (List.range pre.length).map (fun j => Ev.delCall j key) ++
          [Ev.delCall pre.length key]) := by
  constructor
  · intro hok
    have hd := deleteAux_ok_all caches key 0 hok
    refine ⟨?_, ?_, ?_⟩
    · simp [TieredCache.Delete, hd]
    · simp [TieredCache.Delete, hd]
    · intro c' hc'
      simp only [TieredCache.Delete, hd] at hc'
      rcases List.mem_map.mp hc' with ⟨c, hc, rfl⟩
      exact Cacher.delete_lookup_none c key (hok c hc)
  · intro pre post bad e hsplit hok hbad
    have hd := deleteAux_abort pre post bad key 0 e hok hbad
    rw [hsplit]
    refine ⟨?_, ?_, ?_⟩ <;> simp [TieredCache.Delete, hd]

/-- Witness for C7: the key is absent from tier 0 and present in tier 1;
`Delete` returns nil and afterward both tiers report the key absent. -/
theorem C7_delete_independence_witness :
    (TieredCache.Delete
      [(⟨[], fun _ => none, fun _ => none, fun _ => none⟩ : Cacher Nat Nat),
       ⟨[("k", 5, 3)], fun _ => none, fun _ => none, fun _ => none⟩]
      "k").err = none ∧
    cVal (TieredCache.Delete
      [(⟨[], fun _ => none, fun _ => none, fun _ => none⟩ : Cacher Nat Nat),
       ⟨[("k", 5, 3)], fun _ => none, fun _ => none, fun _ => none⟩]
      "k").caches 0 "k" = none ∧
    cVal (TieredCache.Delete
      [(⟨[], fun _ => none, fun _ => none, fun _ => none⟩ : Cacher Nat Nat),
       ⟨[("k", 5, 3)], fun _ => none, fun _ => none, fun _ => none⟩]
      "k").caches 1 "k" = none := by
  have h := (C7_delete_independence
    (V := Nat) (E := Nat)
    [⟨[], fun _ => none, fun _ => none, fun _ => none⟩,
     ⟨[("k", 5, 3)], fun _ => none, fun _ => none, fun _ => none⟩]
    "k").1 (by intro c hc; simp at hc; rcases hc with rfl | rfl <;> rfl)
  exact ⟨h.1, by decide, by decide⟩

/-- C2: a non-miss error from a tier's `Get` aborts the whole `Get`
immediately: the error is returned unchanged, no tier state changes, and
the trace shows the misses of the earlier tiers followed by the failing
`Get` only — tiers after the failing one are never consulted and the
compute function is never invoked. -/
theorem C2_error_short_circuit (pre post : List (Cacher V E))
    (bad : Cacher V E) (key : String) (ttl : Nat) (f : ComputeFunc V E)
    (e : E) (hpre : ∀ c ∈ pre, c.get key = .error .cacheMiss)
    (hbad : bad.getErr key = some e) :
    (TieredCache.Get (pre ++ bad :: post) key ttl f).result = .error (.other e) ∧
    (TieredCache.Get (pre ++ bad :: post) key ttl f).caches = pre ++ bad :: post ∧
    (TieredCache.Get (pre ++ bad :: post) key ttl f).trace =
      (List.range pre.length).map (fun j => Ev.getCall j key) ++
        [Ev.getCall pre.length key] := by
  have hb : bad.get key = .error (.other e) := by simp [Cacher.get, hbad]
  have hg : getCacheAux (pre ++ bad :: post) key 0 =
      (.fail (.other e),
        (List.range pre.length).map (fun j => Ev.getCall j key) ++
          [Ev.getCall pre.length key]) := by
    rw [getCacheAux_append_miss pre (bad :: post) key 0 hpre,
      getCacheAux_cons_fail post (0 + pre.length) hb]
    simp
  simp [TieredCache.Get, hg]

/-- Witness for C2: two healthy-but-missing tiers never reached tier 2,
and the infrastructure error 13 of tier 1 is returned verbatim. -/
theorem C2_error_short_circuit_witness :
    (TieredCache.Get
      [(⟨[], fun _ => none, fun _ => none, fun _ => none⟩ : Cacher Nat Nat),
       ⟨[], fun _ => some 13, fun _ => none, fun _ => none⟩,
       ⟨[("k", 5, 9)], fun _ => none, fun _ => none, fun _ => none⟩]
      "k" 7 (fun _ => .ok 1)).result = .error (.other 13) ∧
    (TieredCache.Get
      [(⟨[], fun _ => none, fun _ => none, fun _ => none⟩ : Cacher Nat Nat),
       ⟨[], fun _ => some 13, fun _ => none, fun _ => none⟩,
       ⟨[("k", 5, 9)], fun _ => none, fun _ => none, fun _ => none⟩]
      "k" 7 (fun _ => .ok 1)).trace =
      [Ev.getCall 0 "k", Ev.getCall 1 "k"] := by
  have h := C2_error_short_circuit
    (V := Nat) (E := Nat)
    [⟨[], fun _ => none, fun _ => none, fun _ => none⟩]
    [⟨[("k", 5, 9)], fun _ => none, fun _ => none, fun _ => none⟩]
    ⟨[], fun _ => some 13, fun _ => none, fun _ => none⟩
    "k" 7 (fun _ => .ok 1) 13
    (by intro c hc; simp at hc; subst hc; rfl) rfl
  exact ⟨h.1, h.2.2⟩

/-! ### Batch loop lemmas -/

/-- The results and remaining keys computed by the batch tier loop do
not depend on the already-processed prefix or on the accumulated trace
(those only feed backfill targets and the event log). -/
theorem bgLoop_proj (ttl : Nat) (rest : List (BatchCacher V E)) :
    ∀ (p p' : List (BatchCacher V E)) rem res tr tr',
      ((bgLoop ttl p rest rem res tr).results,
        (bgLoop ttl p rest rem res tr).remaining) =
      ((bgLoop ttl p' rest rem res tr').results,
        (bgLoop ttl p' rest rem res tr').remaining) := by
  induction rest with
  | nil => intro p p' rem res tr tr'; rfl
  | cons c rest ih =>
    intro p p' rem res tr tr'
    by_cases hrem : rem.isEmpty
    · simp [bgLoop, hrem]
    · simp only [bgLoop, hrem, Bool.false_eq_true, if_false]
      cases hbg : c.batchGet rem with
      | error e => exact ih _ _ _ _ _ _
      | ok tR =>
        by_cases htR : tR.isEmpty
        · simp only [htR, if_true]
          exact ih _ _ _ _ _ _
        · simp only [htR, Bool.false_eq_true, if_false]
          exact ih _ _ _ _ _ _

theorem bPopAux_nbc (cs : List (BatchCacher V E))
    (items : List (String × V)) (ttl i : Nat) :
    ∀ ev ∈ (bPopAux cs items ttl i).2, ∀ r, ev ≠ Ev.batchComputeCall r := by
  induction cs generalizing i with
  | nil => simp [bPopAux]
  | cons c cs ih =>
    cases hbs : c.bsetErr with
    | some e => simp [bPopAux, BatchCacher.batchSet, hbs]
    | none =>
      simp only [bPopAux, BatchCacher.batchSet, hbs, List.mem_cons]
      rintro ev (rfl | hev)
      · simp
      · exact ih (i + 1) ev hev

theorem bSetAllIgnore_nbc (cs : List (BatchCacher V E))
    (items : List (String × V)) (ttl i : Nat) :
    ∀ ev ∈ (bSetAllIgnore cs items ttl i).2, ∀ r, ev ≠ Ev.batchComputeCall r := by
  induction cs generalizing i with
  | nil => simp [bSetAllIgnore]
  | cons c cs ih =>
    simp only [bSetAllIgnore, List.mem_cons]
    rintro ev (rfl | hev)
    · simp
    · exact ih (i + 1) ev hev

/-- The batch tier loop never emits a compute event. -/
theorem bgLoop_nbc (ttl : Nat) (rest : List (BatchCacher V E)) :
    ∀ p rem res tr, (∀ ev ∈ tr, ∀ r, ev ≠ Ev.batchComputeCall r) →
      ∀ ev ∈ (bgLoop ttl p rest rem res tr).trace, ∀ r,
        ev ≠ Ev.batchComputeCall r := by
  induction rest with
  | nil => intro p rem res tr htr; exact htr
  | cons c rest ih =>
    intro p rem res tr htr
    by_cases hrem : rem.isEmpty
    · simpa [bgLoop, hrem] using htr
    · simp only [bgLoop, hrem, Bool.false_eq_true, if_false]
      have hstep : ∀ ev ∈ tr ++ [Ev.batchGetCall p.length rem], ∀ r,
          ev ≠ Ev.batchComputeCall r := by
        intro ev hev r
        rcases List.mem_append.mp hev with h | h
        · exact htr ev h r
        · simp at h; subst h; simp
      cases hbg : c.batchGet rem with
      | error e => exact ih _ _ _ _ hstep
      | ok tR =>
        by_cases htR : tR.isEmpty
        · simp only [htR, if_true]
          exact ih _ _ _ _ hstep
        · simp only [htR, Bool.false_eq_true, if_false]
          refine ih _ _ _ _ ?_
          intro ev hev r
          rcases List.mem_append.mp hev with h | h
          · exact hstep ev h r
          · by_cases hp : 0 < p.length
            · simp only [hp, if_true] at h
              exact bPopAux_nbc p tR ttl 0 ev h r
            · simp only [hp, Bool.false_eq_true, if_false] at h
              simp at h

/-- Membership of a compute event in a loop trace followed by one
compute event and more backend events. -/
theorem mem_bc_append (tr tr2 : List (Ev V)) (rem r : List String)
    (hnb : ∀ ev ∈ tr, ∀ s, ev ≠ Ev.batchComputeCall s)
    (hnb2 : ∀ ev ∈ tr2, ∀ s, ev ≠ Ev.batchComputeCall s) :
    (Ev.batchComputeCall r ∈ tr ++ [Ev.batchComputeCall rem] ++ tr2) ↔ r = rem := by
  constructor
  · intro h
    rcases List.mem_append.mp h with h | h
    · rcases List.mem_append.mp h with h | h
      · exact absurd rfl (hnb _ h r)
      · simp at h
        exact h.symm ▸ rfl
    · exact absurd rfl (hnb2 _ h r)
  · rintro rfl
    simp

/-- A tier whose `BatchGet` always fails is transparent to the results
and remaining keys of the batch tier loop. -/
theorem bgLoop_skip_err (ttl : Nat) (post : List (BatchCacher V E))
    (bad : BatchCacher V E) (hbad : ∀ ks, (bad.bgetErr ks).isSome) :
    ∀ (pre : List (BatchCacher V E)) p p' rem res tr tr',
      ((bgLoop ttl p (pre ++ bad :: post) rem res tr).results,
        (bgLoop ttl p (pre ++ bad :: post) rem res tr).remaining) =
      ((bgLoop ttl p' (pre ++ post) rem res tr').results,
        (bgLoop ttl p' (pre ++ post) rem res tr').remaining) := by
  intro pre
  induction pre with
  | nil =>
    intro p p' rem res tr tr'
    by_cases hrem : rem.isEmpty
    · cases post <;> simp [bgLoop, hrem]
    · obtain ⟨e, he⟩ := Option.isSome_iff_exists.mp (hbad rem)
      have hbg : bad.batchGet rem = .error e := by
        simp [BatchCacher.batchGet, he]
      simp only [List.nil_append, bgLoop, hrem, Bool.false_eq_true, if_false, hbg]
      exact bgLoop_proj ttl post _ _ _ _ _ _
  | cons c pre ih =>
    intro p p' rem res tr tr'
    by_cases hrem : rem.isEmpty
    · simp [bgLoop, hrem]
    · simp only [List.cons_append, bgLoop, hrem, Bool.false_eq_true, if_false]
      cases hbg : c.batchGet rem with
      | error e => exact ih _ _ _ _ _ _
      | ok tR =>
        by_cases htR : tR.isEmpty
        · simp only [htR, if_true]
          exact ih _ _ _ _ _ _
        · simp only [htR, Bool.false_eq_true, if_false]
          exact ih _ _ _ _ _ _

/-- Evaluation of `BatchGet` when the tier loop resolves every key. -/
theorem BatchGet_allHit (caches : List (BatchCacher V E)) (keys : List String)
    (ttl : Nat) (f : BatchComputeFunc V E) (hk : ¬ keys.isEmpty)
    (hrem : (bgLoop ttl [] caches keys [] []).remaining.isEmpty) :
    BatchTieredCache.BatchGet caches keys ttl f =
      ⟨(bgLoop ttl [] caches keys [] []).results, none,
        (bgLoop ttl [] caches keys [] []).caches,
        (bgLoop ttl [] caches keys [] []).trace⟩ := by
  simp [BatchTieredCache.BatchGet, hk, hrem]

/-- Evaluation of `BatchGet` when keys remain and the compute fails. -/
theorem BatchGet_computeErr (caches : List (BatchCacher V E))
    (keys : List String) (ttl : Nat) (f : BatchComputeFunc V E) (e : GoErr E)
    (hk : ¬ keys.isEmpty)
    (hrem : ¬ (bgLoop ttl [] caches keys [] []).remaining.isEmpty)
    (hf : f (bgLoop ttl [] caches keys [] []).remaining = .error e) :
    BatchTieredCache.BatchGet caches keys ttl f =
      ⟨(bgLoop ttl [] caches keys [] []).results, some e,
        (bgLoop ttl [] caches keys [] []).caches,
        (bgLoop ttl [] caches keys [] []).trace ++
          [Ev.batchComputeCall (bgLoop ttl [] caches keys [] []).remaining]⟩ := by
  simp [BatchTieredCache.BatchGet, hk, hrem, hf]

/-- Evaluation of `BatchGet` when keys remain and the compute returns an
empty map. -/
theorem BatchGet_computeEmpty (caches : List (BatchCacher V E))
    (keys : List String) (ttl : Nat) (f : BatchComputeFunc V E)
    (cv : List (String × V)) (hk : ¬ keys.isEmpty)
    (hrem : ¬ (bgLoop ttl [] caches keys [] []).remaining.isEmpty)
    (hf : f (bgLoop ttl [] caches keys [] []).remaining = .ok cv)
    (hcv : cv.isEmpty) :
    BatchTieredCache.BatchGet caches keys ttl f =
      ⟨(bgLoop ttl [] caches keys [] []).results, none,
        (bgLoop ttl [] caches keys [] []).caches,
        (bgLoop ttl [] caches keys [] []).trace ++
          [Ev.batchComputeCall (bgLoop ttl [] caches keys [] []).remaining]⟩ := by
  simp [BatchTieredCache.BatchGet, hk, hrem, hf, hcv]

/-- Evaluation of `BatchGet` when keys remain and the compute returns a
non-empty map: it is written to every tier and merged into the result. -/
theorem BatchGet_computeOk (caches : List (BatchCacher V E))
    (keys : List String) (ttl : Nat) (f : BatchComputeFunc V E)
    (cv : List (String × V)) (hk : ¬ keys.isEmpty)
    (hrem : ¬ (bgLoop ttl [] caches keys [] []).remaining.isEmpty)
    (hf : f (bgLoop ttl [] caches keys [] []).remaining = .ok cv)
    (hcv : ¬ cv.isEmpty) :
    BatchTieredCache.BatchGet caches keys ttl f =
      ⟨mergeAssoc (bgLoop ttl [] caches keys [] []).results cv, none,
        (bSetAllIgnore (bgLoop ttl [] caches keys [] []).caches cv ttl 0).1,
        (bgLoop ttl [] caches keys [] []).trace ++
          [Ev.batchComputeCall (bgLoop ttl [] caches keys [] []).remaining] ++
          (bSetAllIgnore (bgLoop ttl [] caches keys [] []).caches cv ttl 0).2⟩ := by
  simp [BatchTieredCache.BatchGet, hk, hrem, hf, hcv]

/-- Membership of a compute event in a loop trace followed by exactly
one compute event. -/
theorem mem_bc_one (tr : List (Ev V)) (rem r : List String)
    (hnb : ∀ ev ∈ tr, ∀ s, ev ≠ Ev.batchComputeCall s) :
    (Ev.batchComputeCall r ∈ tr ++ [Ev.batchComputeCall rem]) ↔ r = rem := by
  constructor
  · intro h
    rcases List.mem_append.mp h with h | h
    · exact absurd rfl (hnb _ h r)
    · simp at h
      exact h.symm ▸ rfl
  · rintro rfl
    simp

/-- C5: a tier whose `BatchGet` fails with a tier-level error
contributes nothing to a `BatchGet` call and its error is never
returned: the call produces the same result map and the same error as
the call on the tier chain without that tier, and the batch compute
function is invoked on exactly the same unresolved key sets. -/
theorem C5_batch_tier_error_skipped (pre post : List (BatchCacher V E))
    (bad : BatchCacher V E) (hbad : ∀ ks, (bad.bgetErr ks).isSome)
    (keys : List String) (ttl : Nat) (f : BatchComputeFunc V E) :
    (BatchTieredCache.BatchGet (pre ++ bad :: post) keys ttl f).results =
      (BatchTieredCache.BatchGet (pre ++ post) keys ttl f).results ∧
    (BatchTieredCache.BatchGet (pre ++ bad :: post) keys ttl f).err =
      (BatchTieredCache.BatchGet (pre ++ post) keys ttl f).err ∧
    (∀ r, Ev.batchComputeCall r ∈
        (BatchTieredCache.BatchGet (pre ++ bad :: post) keys ttl f).trace ↔
      Ev.batchComputeCall r ∈
        (BatchTieredCache.BatchGet (pre ++ post) keys ttl f).trace) := by
  by_cases hk : keys.isEmpty
  · simp [BatchTieredCache.BatchGet, hk]
  · have hproj := bgLoop_skip_err ttl post bad hbad pre [] [] keys [] [] []
    have hres : (bgLoop ttl [] (pre ++ bad :: post) keys [] []).results =
        (bgLoop ttl [] (pre ++ post) keys [] []).results :=
      congrArg Prod.fst hproj
    have hrem : (bgLoop ttl [] (pre ++ bad :: post) keys [] []).remaining =
        (bgLoop ttl [] (pre ++ post) keys [] []).remaining :=
      congrArg Prod.snd hproj
    have hnb : ∀ ev ∈ (bgLoop ttl [] (pre ++ bad :: post) keys [] []).trace,
        ∀ r, ev ≠ Ev.batchComputeCall r :=
      bgLoop_nbc ttl _ [] keys [] [] (by simp)
    have hnb' : ∀ ev ∈ (bgLoop ttl [] (pre ++ post) keys [] []).trace,
        ∀ r, ev ≠ Ev.batchComputeCall r :=
      bgLoop_nbc ttl _ [] keys [] [] (by simp)
    by_cases hLrem : (bgLoop ttl [] (pre ++ post) keys [] []).remaining.isEmpty
    · rw [BatchGet_allHit _ keys ttl f hk (by rw [hrem]; exact hLrem),
        BatchGet_allHit _ keys ttl f hk hLrem]
      refine ⟨hres, rfl, ?_⟩
      intro r
      exact iff_of_false (fun h => absurd rfl (hnb _ h r))
        (fun h => absurd rfl (hnb' _ h r))
    · cases hf : f (bgLoop ttl [] (pre ++ post) keys [] []).remaining with
      | error e =>
        rw [BatchGet_computeErr _ keys ttl f e hk (by rw [hrem]; exact hLrem)
            (by rw [hrem]; exact hf),
          BatchGet_computeErr _ keys ttl f e hk hLrem hf]
        refine ⟨hres, rfl, ?_⟩
        intro r
        rw [hrem, mem_bc_one _ _ _ hnb, mem_bc_one _ _ _ hnb']
      | ok cv =>
        by_cases hcv : cv.isEmpty
        · rw [BatchGet_computeEmpty _ keys ttl f cv hk (by rw [hrem]; exact hLrem)
              (by rw [hrem]; exact hf) hcv,
            BatchGet_computeEmpty _ keys ttl f cv hk hLrem hf hcv]
          refine ⟨hres, rfl, ?_⟩
          intro r
          rw [hrem, mem_bc_one _ _ _ hnb, mem_bc_one _ _ _ hnb']
        · rw [BatchGet_computeOk _ keys ttl f cv hk (by rw [hrem]; exact hLrem)
              (by rw [hrem]; exact hf) hcv,
            BatchGet_computeOk _ keys ttl f cv hk hLrem hf hcv]
          refine ⟨by rw [hres], rfl, ?_⟩
          intro r
          rw [hrem, mem_bc_append _ _ _ _ hnb (bSetAllIgnore_nbc _ _ _ _),
            mem_bc_append _ _ _ _ hnb' (bSetAllIgnore_nbc _ _ _ _)]

/-- Witness for C5: tier 0 always fails its `BatchGet`; with tier 1
holding A, `BatchGet {A,B}` behaves (in results and error) exactly like
the call without tier 0: A is served from tier 1, B comes from compute,
no error. -/
theorem C5_batch_tier_error_skipped_witness :
    (BatchTieredCache.BatchGet
      [(⟨[], fun _ => some 3, none⟩ : BatchCacher Nat Nat),
       ⟨[("A", 1, 9)], fun _ => none, none⟩]
      ["A", "B"] 5 (fun _ => .ok [("B", 2)])).results =
      (BatchTieredCache.BatchGet
        [(⟨[("A", 1, 9)], fun _ => none, none⟩ : BatchCacher Nat Nat)]
        ["A", "B"] 5 (fun _ => .ok [("B", 2)])).results ∧
    (BatchTieredCache.BatchGet
      [(⟨[], fun _ => some 3, none⟩ : BatchCacher Nat Nat),
       ⟨[("A", 1, 9)], fun _ => none, none⟩]
      ["A", "B"] 5 (fun _ => .ok [("B", 2)])).err = none := by
  have h := C5_batch_tier_error_skipped
    (V := Nat) (E := Nat) []
    [⟨[("A", 1, 9)], fun _ => none, none⟩]
    ⟨[], fun _ => some 3, none⟩
    (fun _ => by simp)
    ["A", "B"] 5 (fun _ => .ok [("B", 2)])
  exact ⟨h.1, h.2.1.trans (by decide)⟩

/-- C6: when keys remain unresolved after the tier loop and the batch
compute function fails, `BatchGet` returns the compute error together
with the partial result map accumulated from tier hits, the tier states
are exactly those left by the tier loop (no tier is written with
computed values), and the only event after the loop is the compute
invocation. -/
theorem C6_batch_compute_error_partial (caches : List (BatchCacher V E))
    (keys : List String) (ttl : Nat) (f : BatchComputeFunc V E) (e : GoErr E)
    (hk : ¬ keys.isEmpty)
    (hrem : ¬ (bgLoop ttl [] caches keys [] []).remaining.isEmpty)
    (hf : f (bgLoop ttl [] caches keys [] []).remaining = .error e) :
    (BatchTieredCache.BatchGet caches keys ttl f).results =
      (bgLoop ttl [] caches keys [] []).results ∧
    (BatchTieredCache.BatchGet caches keys ttl f).err = some e ∧
    (BatchTieredCache.BatchGet caches keys ttl f).caches =
      (bgLoop ttl [] caches keys [] []).caches ∧
    (BatchTieredCache.BatchGet caches keys ttl f).trace =
      (bgLoop ttl [] caches keys [] []).trace ++
        [Ev.batchComputeCall (bgLoop ttl [] caches keys [] []).remaining] := by
  simp [BatchTieredCache.BatchGet, hk, hrem, hf]

/-- Witness for C6: tier 0 holds A; compute fails with error 7 on the
remaining {B}: the partial result {A ↦ 1} is preserved alongside the
error and tier 0 is unchanged. -/
theorem C6_batch_compute_error_partial_witness :
    (BatchTieredCache.BatchGet
      [(⟨[("A", 1, 9)], fun _ => none, none⟩ : BatchCacher Nat Nat)]
      ["A", "B"] 5 (fun _ => .error (.other 7))).results = [("A", 1)] ∧
    (BatchTieredCache.BatchGet
      [(⟨[("A", 1, 9)], fun _ => none, none⟩ : BatchCacher Nat Nat)]
      ["A", "B"] 5 (fun _ => .error (.other 7))).err = some (.other 7) ∧
    bVal (BatchTieredCache.BatchGet
      [(⟨[("A", 1, 9)], fun _ => none, none⟩ : BatchCacher Nat Nat)]
      ["A", "B"] 5 (fun _ => .error (.other 7))).caches 0 "A" = some 1 ∧
    bVal (BatchTieredCache.BatchGet
      [(⟨[("A", 1, 9)], fun _ => none, none⟩ : BatchCacher Nat Nat)]
      ["A", "B"] 5 (fun _ => .error (.other 7))).caches 0 "B" = none := by
  have h := C6_batch_compute_error_partial
    (V := Nat) (E := Nat)
    [⟨[("A", 1, 9)], fun _ => none, none⟩]
    ["A", "B"] 5 (fun _ => .error (.other 7)) (.other 7)
    (by decide) (by decide) (by decide)
  refine ⟨?_, h.2.1, ?_, ?_⟩
  · rw [h.1]; decide
  · rw [h.2.2.1]; decide
  · rw [h.2.2.1]; decide

/-- C1: Batch partial resolution.  Tier 0 holds only A (value 1), tier 1
holds only B (value 2), the batch compute function returns {C ↦ 3}.
`BatchGet({A,B,C})` returns exactly the map {A ↦ 1, B ↦ 2, C ↦ 3} with no
error; afterward tier 0 contains A, B and C (B backfilled from tier 1, C
written through from compute) and tier 1 contains B and C. -/
theorem C1_batch_partial_resolution :
    (let out := BatchTieredCache.BatchGet
      [(⟨[("A", 1, 9)], fun _ => none, none⟩ : BatchCacher Nat Nat),
       ⟨[("B", 2, 9)], fun _ => none, none⟩]
      ["A", "B", "C"] 5 (fun _ => .ok [("C", 3)])
    out.err = none ∧
    mLookup out.results "A" = some 1 ∧ mLookup out.results "B" = some 2 ∧
    mLookup out.results "C" = some 3 ∧ out.results.length = 3 ∧
    bVal out.caches 0 "A" = some 1 ∧ bVal out.caches 0 "B" = some 2 ∧
    bVal out.caches 0 "C" = some 3 ∧
    bVal out.caches 1 "B" = some 2 ∧ bVal out.caches 1 "C" = some 3) := by
  decide

/-- C9: `BatchGet` on an empty key slice returns an empty map and no
error, leaves every tier untouched, and performs no backend call and no
compute invocation (empty trace). -/
theorem C9_batchget_empty_keys (caches : List (BatchCacher V E)) (ttl : Nat)
    (f : BatchComputeFunc V E) :
    BatchTieredCache.BatchGet caches [] ttl f = ⟨[], none, caches, []⟩ := by
  rfl

/-- C10: a tiered cache constructed from only nil tiers has an empty tier
list, its `Get` returns exactly the pair produced by the compute
function, and `Set` and `Delete` always return nil. -/
theorem C10_no_tiers (opts : List (Option (Cacher V E)))
    (h : ∀ o ∈ opts, o = none) :
    NewTieredCache opts = [] ∧
    (∀ key ttl (f : ComputeFunc V E),
      (TieredCache.Get (NewTieredCache opts) key ttl f).result = f key) ∧
    (∀ key v ttl, (TieredCache.Set (NewTieredCache opts) key v ttl).err = none) ∧
    (∀ key, (TieredCache.Delete (NewTieredCache opts) key).err = none) := by
  have hnil : NewTieredCache (V := V) (E := E) opts = [] := by
    simp only [NewTieredCache, List.filterMap_eq_nil_iff, id_eq]
    exact h
  refine ⟨hnil, ?_, ?_, ?_⟩
  · intro key ttl f
    rw [hnil]
    cases hf : f key <;>
      simp [TieredCache.Get, getCacheAux, setCacheAux, hf]
  · intro key v ttl
    rw [hnil]; rfl
  · intro key
    rw [hnil]; rfl

/-- Witness for C10 at a concrete input: two nil tiers, a compute
function returning 7, and a failing compute function. -/
theorem C10_no_tiers_witness :
    (TieredCache.Get (NewTieredCache (V := Nat) (E := Nat) [none, none])
      "k" 3 (fun _ => .ok 7)).result = .ok 7 ∧
    (TieredCache.Get (NewTieredCache (V := Nat) (E := Nat) [none, none])
      "k" 3 (fun _ => .error (.other 4))).result = .error (.other 4) ∧
    (TieredCache.Set (NewTieredCache (V := Nat) (E := Nat) [none, none])
      "k" 7 3).err = none ∧
    (TieredCache.Delete (NewTieredCache (V := Nat) (E := Nat) [none, none])
      "k").err = none := by
  have h := C10_no_tiers (V := Nat) (E := Nat) [none, none] (by simp)
  exact ⟨h.2.1 "k" 3 _, h.2.1 "k" 3 _, h.2.2.1 "k" 7 3, h.2.2.2 "k"⟩

end GoCache
